import Mathlib

/-!
# Verification of the Selement runtime core

Shallow embedding of the runtime core of the Selement 2D action game
(`Assets/modules/biome.py`, `entities.py`, `world.py`, `player.py`,
`utility.py`) together with proofs about the embedded definitions.

Conventions used throughout the embedding:

* Python floats are modelled as rationals (`ℚ`); Python ints as `ℤ`.
  Python floor division `//` and `%` on ints coincide with Lean's `Int`
  division/modulo (both are Euclidean for the positive divisors used here).
* `utility.distance` returns `math.sqrt(dx² + dy²)`; every use in the
  embedded code compares it with a nonnegative bound, so the comparison is
  embedded by the equivalent comparison of squares (exact, no rounding).
* `utility.TimeKeeper` stores a wall-clock start time and an optional
  duration (seconds); `is_finished()` compares the elapsed seconds with the
  duration.  The embedding passes the current time `now` explicitly.
* Pygame surfaces, sounds and particles are irrelevant to the verified
  claims and are dropped; collision outcomes that depend on pixel masks are
  abstracted as boolean inputs where a claim quantifies over them.
-/

namespace Selement

/-- `biome.Biome`: the five biome categories (`fifth_biome` is the special
arena biome returned when the noise generators are missing). -/
inductive Biome where
  | fire
  | water
  | dirt
  | air
  | fifth_biome
deriving DecidableEq, Repr

/-- The part of a `World` object read by `biome.get_biome`: the two optional
noise generators (`temp_noise_generator`, `moist_noise_generator`, modelled
as total functions `ℚ → ℚ → ℚ` since `opensimplex.noise2` is a pure
deterministic function of its two arguments), the tile size, the four noise
offsets and the biome scale.  A missing attribute (`hasattr` false) is
modelled by `none`. -/
structure NoiseCfg where
  temp : Option (ℚ → ℚ → ℚ)
  moist : Option (ℚ → ℚ → ℚ)
  tile_size : ℤ
  offset1 : ℚ
  offset2 : ℚ
  offset3 : ℚ
  offset4 : ℚ
  biome_size : ℚ

/-- `biome.get_biome(world, x, y)`.  Mirrors the source: if both noise
generators exist, snap `(x, y)` to the centre of its tile
(`math.floor(c / tile_size) * tile_size + tile_size // 2`), sample both
noise fields at the offset/scaled coordinates and classify by the signs;
otherwise return `fifth_biome` (`DEFAULT_BIOME_WHEN_NOISE_MISSING`). -/
def get_biome (w : NoiseCfg) (x y : ℚ) : Biome :=
  match w.temp, w.moist with
  | some tn, some mn =>
    let ts : ℤ := w.tile_size
    let centered_x : ℚ := ((⌊x / (ts : ℚ)⌋ * ts + ts / 2 : ℤ) : ℚ)
    let centered_y : ℚ := ((⌊y / (ts : ℚ)⌋ * ts + ts / 2 : ℤ) : ℚ)
    let temp := tn ((centered_x + w.offset1) / w.biome_size)
                   ((centered_y + w.offset2) / w.biome_size)
    let moist := mn ((centered_x + w.offset3) / w.biome_size)
                    ((centered_y + w.offset4) / w.biome_size)
    if 0 < temp then
      if 0 < moist then Biome.air else Biome.fire
    else
      if 0 < moist then Biome.water else Biome.dirt
  | _, _ => Biome.fifth_biome

/-- The spec's `classify` contract (§4.1), written from the spec's words:
`classify(hasNoise, tempNoise, moistNoise, x, y, tileSize, biomeSize,
offsets)` returns SpecialArena when a noise field is unavailable, otherwise
snaps to the tile centre `floor(coord/tileSize)*tileSize + tileSize/2`
(integer tile sizes, so `tileSize/2` is integer division), samples the two
noise fields with per-axis offsets divided by `biomeSize`, and classifies by
sign: temp>0 ∧ moist>0 → Air, temp>0 ∧ moist≤0 → Fire, temp≤0 ∧ moist>0 →
Water, temp≤0 ∧ moist≤0 → Soil. -/
def classify_spec (tempNoise moistNoise : Option (ℚ → ℚ → ℚ)) (x y : ℚ)
    (tileSize : ℤ) (biomeSize : ℚ) (o1 o2 o3 o4 : ℚ) : Biome :=
  match tempNoise, moistNoise with
  | some tn, some mn =>
    let cx : ℚ := ((⌊x / (tileSize : ℚ)⌋ * tileSize + tileSize / 2 : ℤ) : ℚ)
    let cy : ℚ := ((⌊y / (tileSize : ℚ)⌋ * tileSize + tileSize / 2 : ℤ) : ℚ)
    let temp := tn ((cx + o1) / biomeSize) ((cy + o2) / biomeSize)
    let moist := mn ((cx + o3) / biomeSize) ((cy + o4) / biomeSize)
    if 0 < temp then (if 0 < moist then Biome.air else Biome.fire)
    else (if 0 < moist then Biome.water else Biome.dirt)
  | _, _ => Biome.fifth_biome

theorem get_biome_eq_classify_spec (w : NoiseCfg) (x y : ℚ) :
    get_biome w x y =
      classify_spec w.temp w.moist x y w.tile_size w.biome_size
        w.offset1 w.offset2 w.offset3 w.offset4 := by
  cases h1 : w.temp <;> cases h2 : w.moist <;>
    simp [get_biome, classify_spec, h1, h2]

theorem get_biome_missing (w : NoiseCfg) (x y : ℚ)
    (h : w.temp = none ∨ w.moist = none) :
    get_biome w x y = Biome.fifth_biome := by
  rcases h with h | h <;> cases h1 : w.temp <;> cases h2 : w.moist <;>
    simp_all [get_biome]

theorem get_biome_tile_const (w : NoiseCfg) (x y x' y' : ℚ)
    (hx : ⌊x / (w.tile_size : ℚ)⌋ = ⌊x' / (w.tile_size : ℚ)⌋)
    (hy : ⌊y / (w.tile_size : ℚ)⌋ = ⌊y' / (w.tile_size : ℚ)⌋) :
    get_biome w x y = get_biome w x' y' := by
  cases h1 : w.temp <;> cases h2 : w.moist <;>
    simp [get_biome, h1, h2, hx, hy]

/-- **C1.** `get_biome` returns `fifth_biome` (SpecialArena) whenever either
noise field is missing; otherwise it equals the spec's `classify` contract —
sampling both noise fields at the centre of the tile containing `(x, y)`
(`floor(c/tileSize)*tileSize + tileSize/2`, per-axis offsets divided by
`biomeSize`) and classifying by sign (temp>0 ∧ moist>0 → air, temp>0 ∧
moist≤0 → fire, temp≤0 ∧ moist>0 → water, temp≤0 ∧ moist≤0 → dirt/Soil);
consequently any two coordinates in the same tile (equal floored tile
indices) classify to the same biome. -/
theorem claim_C1 (w : NoiseCfg) (x y x' y' : ℚ) :
    ((w.temp = none ∨ w.moist = none) → get_biome w x y = Biome.fifth_biome)
    ∧ (get_biome w x y =
        classify_spec w.temp w.moist x y w.tile_size w.biome_size
          w.offset1 w.offset2 w.offset3 w.offset4)
    ∧ ((⌊x / (w.tile_size : ℚ)⌋ = ⌊x' / (w.tile_size : ℚ)⌋) →
       (⌊y / (w.tile_size : ℚ)⌋ = ⌊y' / (w.tile_size : ℚ)⌋) →
       get_biome w x y = get_biome w x' y') :=
  ⟨get_biome_missing w x y,
   get_biome_eq_classify_spec w x y,
   fun hx hy => get_biome_tile_const w x y x' y' hx hy⟩

/-- Witness for C1 at a concrete world (temperature noise = first coordinate,
moisture noise = second coordinate, tile size 128 as in the game): the
coordinates (10, -5) and (100, -100) lie in the same tile and get the same
biome, and a world without a moisture field classifies to `fifth_biome`. -/
theorem claim_C1_witness :
    get_biome ⟨some (fun a _ => a), some (fun _ b => b), 128, 0, 0, 0, 0, 8192⟩
        10 (-5) =
      get_biome ⟨some (fun a _ => a), some (fun _ b => b), 128, 0, 0, 0, 0, 8192⟩
        100 (-100)
    ∧ get_biome ⟨some (fun a _ => a), none, 128, 0, 0, 0, 0, 8192⟩ 3 4 =
        Biome.fifth_biome := by
  constructor
  · exact (claim_C1 ⟨some (fun a _ => a), some (fun _ b => b), 128, 0, 0, 0, 0,
      8192⟩ 10 (-5) 100 (-100)).2.2
      (by norm_num) (by norm_num)
  · exact (claim_C1 ⟨some (fun a _ => a), none, 128, 0, 0, 0, 0, 8192⟩ 3 4 3 4).1
      (Or.inr rfl)

/-! ## Entity visibility filter (`world.World._append_visible_entity`) -/

/-- The data of an `entities.Entity` needed by the visibility filter:
its position and symbolic name. -/
structure VEntity where
  x : ℚ
  y : ℚ
  name : String
deriving DecidableEq, Repr

/-- `World._append_visible_entity(self, e)`: when the player's biome is
water, append `e` to the render buffer iff the entity's own biome is water;
otherwise append it iff the entity's own biome is not water.  `player_biome`
and the world's noise configuration are passed explicitly. -/
def append_visible_entity (player_biome : Biome) (w : NoiseCfg)
    (es : List VEntity) (e : VEntity) : List VEntity :=
  if player_biome = Biome.water then
    if get_biome w e.x e.y = Biome.water then es ++ [e] else es
  else
    if get_biome w e.x e.y ≠ Biome.water then es ++ [e] else es

/-- **C5.** The visibility filter appends an entity iff its water/non-water
classification matches the player's: when the player's biome is water,
exactly the water-classified entities are appended; otherwise exactly the
non-water ones.  Stated both as an equation on the buffer and as a
membership characterisation, for all combinations of entity and player
biome. -/
theorem claim_C5 (player_biome : Biome) (w : NoiseCfg) (es : List VEntity)
    (e : VEntity) :
    append_visible_entity player_biome w es e =
      (if (get_biome w e.x e.y = Biome.water) ↔ (player_biome = Biome.water)
       then es ++ [e] else es)
    ∧ (e ∈ append_visible_entity player_biome w es e ↔
        (e ∈ es ∨
          ((get_biome w e.x e.y = Biome.water) ↔ (player_biome = Biome.water)))) := by
  by_cases hp : player_biome = Biome.water <;>
    by_cases hb : get_biome w e.x e.y = Biome.water <;>
      simp [append_visible_entity, hp, hb]

/-! ## Mob hit points and liveness (`entities.Mob.get_damage`,
`entities.Mob.update_hp`, `world.World._refresh_entities`) -/

/-- Python `int(q)` on a float: truncation toward zero. -/
def pyInt (q : ℚ) : ℤ :=
  if 0 ≤ q then ⌊q⌋ else ⌈q⌉

/-- The hit-point/liveness component of a `Mob`. -/
structure MobHP where
  hp : ℚ
  alive : Bool
deriving DecidableEq, Repr

/-- The final clamp of `Mob.get_damage`: `if self.hp < 0: self.hp = 0`. -/
def clampHpZero (m : MobHP) : MobHP :=
  if m.hp < 0 then { m with hp := 0 } else m

/-- `Mob.get_damage(self, damage)`: if the mob is alive, subtract
`int(damage)` from its hit points (the hit sound is irrelevant here); then
clamp negative hit points to zero. -/
def mobGetDamage (m : MobHP) (damage : ℚ) : MobHP :=
  clampHpZero (if m.alive then { m with hp := m.hp - pyInt damage } else m)

/-- The final statement of `Mob.update_hp`:
`if self.hp <= 0: self.alive = False`. -/
def dieIfHpZero (m : MobHP) : MobHP :=
  if m.hp ≤ 0 then { m with alive := false } else m

/-- `Mob.update_hp(self, world)`, restricted to its effect on `hp`/`alive`:
apply `get_damage` once for each colliding player attack (the list `ds` of
their damage values, in iteration order; particles and projectile removal do
not touch the mob), then set `alive = False` when `hp <= 0`. -/
def mobUpdateHp (m : MobHP) (ds : List ℚ) : MobHP :=
  dieIfHpZero (ds.foldl mobGetDamage m)

/-- One externally visible operation on a mob's hit-point state: either a
direct `get_damage` call or an `update` call (which touches `hp`/`alive`
only through `update_hp`, with `ds` the damages of the colliding player
attacks on that tick). -/
inductive MobOp where
  | damage (d : ℚ)
  | update (ds : List ℚ)

def mobOpStep (m : MobHP) (op : MobOp) : MobHP :=
  match op with
  | MobOp.damage d => mobGetDamage m d
  | MobOp.update ds => mobUpdateHp m ds

def mobRun (m : MobHP) (ops : List MobOp) : MobHP :=
  ops.foldl mobOpStep m

/-- The mob pass of `World._refresh_entities`: iterate the mob list; an
alive mob is updated (by the given update function) and kept, a dead mob is
not updated and is collected for removal; the removals happen after the
pass.  `Room._render_entities_room` runs the identical loop. -/
def refreshMobs (upd : MobHP → MobHP) : List MobHP → List MobHP
  | [] => []
  | m :: rest =>
    if m.alive then upd m :: refreshMobs upd rest else refreshMobs upd rest

theorem clampHpZero_hp_nonneg (m : MobHP) : 0 ≤ (clampHpZero m).hp := by
  unfold clampHpZero
  split
  next h => simp
  next h => exact le_of_not_lt h

theorem clampHpZero_alive (m : MobHP) : (clampHpZero m).alive = m.alive := by
  unfold clampHpZero
  split <;> rfl

theorem dieIfHpZero_hp (m : MobHP) : (dieIfHpZero m).hp = m.hp := by
  unfold dieIfHpZero
  split <;> rfl

theorem dieIfHpZero_alive_mono (m : MobHP)
    (h : (dieIfHpZero m).alive = true) : m.alive = true := by
  unfold dieIfHpZero at h
  split at h
  · simp at h
  · exact h

theorem mobGetDamage_hp_nonneg (m : MobHP) (d : ℚ) :
    0 ≤ (mobGetDamage m d).hp :=
  clampHpZero_hp_nonneg _

theorem mobGetDamage_alive (m : MobHP) (d : ℚ) :
    (mobGetDamage m d).alive = m.alive := by
  unfold mobGetDamage
  rw [clampHpZero_alive]
  split <;> rfl

theorem foldl_mobGetDamage_hp_nonneg (ds : List ℚ) (m : MobHP)
    (h : 0 ≤ m.hp) : 0 ≤ (ds.foldl mobGetDamage m).hp := by
  induction ds generalizing m with
  | nil => exact h
  | cons d rest ih => exact ih _ (mobGetDamage_hp_nonneg m d)

theorem foldl_mobGetDamage_alive (ds : List ℚ) (m : MobHP) :
    (ds.foldl mobGetDamage m).alive = m.alive := by
  induction ds generalizing m with
  | nil => rfl
  | cons d rest ih => rw [List.foldl_cons, ih, mobGetDamage_alive]

theorem mobUpdateHp_hp_nonneg (m : MobHP) (ds : List ℚ) (h : 0 ≤ m.hp) :
    0 ≤ (mobUpdateHp m ds).hp := by
  unfold mobUpdateHp
  rw [dieIfHpZero_hp]
  exact foldl_mobGetDamage_hp_nonneg ds m h

theorem mobOpStep_hp_nonneg (m : MobHP) (op : MobOp) (h : 0 ≤ m.hp) :
    0 ≤ (mobOpStep m op).hp := by
  cases op with
  | damage d => exact mobGetDamage_hp_nonneg m d
  | update ds => exact mobUpdateHp_hp_nonneg m ds h

theorem mobOpStep_alive_mono (m : MobHP) (op : MobOp)
    (h : (mobOpStep m op).alive = true) : m.alive = true := by
  cases op with
  | damage d => rwa [mobOpStep, mobGetDamage_alive] at h
  | update ds =>
    unfold mobOpStep mobUpdateHp at h
    have h2 := dieIfHpZero_alive_mono _ h
    rwa [foldl_mobGetDamage_alive] at h2

theorem mobRun_hp_nonneg (ops : List MobOp) (m : MobHP) (h : 0 ≤ m.hp) :
    0 ≤ (mobRun m ops).hp := by
  induction ops generalizing m with
  | nil => exact h
  | cons op rest ih => exact ih _ (mobOpStep_hp_nonneg m op h)

theorem mobRun_alive_mono (ops : List MobOp) (m : MobHP)
    (h : (mobRun m ops).alive = true) : m.alive = true := by
  induction ops generalizing m with
  | nil => exact h
  | cons op rest ih => exact mobOpStep_alive_mono m op (ih _ h)

theorem refreshMobs_eq (upd : MobHP → MobHP) (l : List MobHP) :
    refreshMobs upd l = (l.filter (fun x => x.alive)).map upd := by
  induction l with
  | nil => rfl
  | cons m rest ih =>
    by_cases ha : m.alive <;> simp [refreshMobs, ha, ih]

/-- **C2.** Over any sequence of `get_damage`/`update` operations starting
from nonnegative hit points: hit points stay nonnegative; once `alive` is
false it stays false (so the flag flips true→false at most once and never
reverts); `get_damage` itself never changes the flag, and an `update` of an
alive mob sets `alive = false` exactly when the post-damage hit points have
reached zero; and the world's per-frame mob pass updates exactly the alive
mobs and drops the dead ones from the mob list (so a dead mob is removed and
never updated again). -/
theorem claim_C2 (m : MobHP) (ops l1 l2 : List MobOp) (d : ℚ) (ds : List ℚ)
    (upd : MobHP → MobHP) (l : List MobHP) (h0 : 0 ≤ m.hp) :
    0 ≤ (mobRun m ops).hp
    ∧ ((mobRun m l1).alive = false → (mobRun m (l1 ++ l2)).alive = false)
    ∧ (mobGetDamage m d).alive = m.alive
    ∧ (m.alive = true →
        ((mobUpdateHp m ds).alive = false ↔ (ds.foldl mobGetDamage m).hp ≤ 0))
    ∧ refreshMobs upd l = (l.filter (fun x => x.alive)).map upd := by
  refine ⟨mobRun_hp_nonneg ops m h0, ?_, mobGetDamage_alive m d, ?_,
    refreshMobs_eq upd l⟩
  · intro hdead
    have hsplit : mobRun m (l1 ++ l2) = mobRun (mobRun m l1) l2 := by
      simp only [mobRun, List.foldl_append]
    rw [hsplit]
    cases h2 : (mobRun (mobRun m l1) l2).alive
    · rfl
    · exact absurd (mobRun_alive_mono l2 _ h2) (by simp [hdead])
  · intro halive
    unfold mobUpdateHp dieIfHpZero
    by_cases hle : (ds.foldl mobGetDamage m).hp ≤ 0
    · simp [hle]
    · simp [hle, foldl_mobGetDamage_alive, halive]

/-- Witness for C2 at a concrete trace: a mob with 100 hp takes a direct
30-damage hit, then an update tick during which two 50-damage projectiles
collide; its hit points never go negative. -/
theorem claim_C2_witness :
    0 ≤ (mobRun ⟨100, true⟩ [MobOp.damage 30, MobOp.update [50, 50]]).hp :=
  (claim_C2 ⟨100, true⟩ [MobOp.damage 30, MobOp.update [50, 50]]
    [MobOp.update [101]] [] (1/2) [101] id [⟨3, true⟩, ⟨0, false⟩]
    (by norm_num)).1

/-- Counterexample to **C10** as stated: `get_damage` does *not* always
reduce hit points by exactly `int(d)` — the subtraction is clamped at zero.
An alive mob with 5 hp hit for 10 damage ends at 0 hp, not `5 - 10 = -5`. -/
theorem claim_C10_counterexample :
    (mobGetDamage ⟨5, true⟩ 10).hp ≠ 5 - ((pyInt 10 : ℤ) : ℚ) := by
  norm_num [mobGetDamage, clampHpZero, pyInt]

/-- **C10 (amended).** For an alive mob with nonnegative hit points,
`get_damage` sets the hit points to `max 0 (hp - int(d))` — i.e. it reduces
them by exactly `int(d)` (truncation toward zero) *except* that the result
is clamped at zero; consequently fractional damage `0 < d < 1` leaves the
hit points unchanged, and when the mob is not alive `get_damage` changes
nothing. -/
theorem claim_C10 (m : MobHP) (d : ℚ) (h0 : 0 ≤ m.hp) :
    (m.alive = true → (mobGetDamage m d).hp = max 0 (m.hp - pyInt d))
    ∧ (m.alive = true → 0 < d → d < 1 → (mobGetDamage m d).hp = m.hp)
    ∧ (m.alive = false → mobGetDamage m d = m) := by
  refine ⟨?_, ?_, ?_⟩
  · intro ha
    unfold mobGetDamage clampHpZero
    rw [if_pos ha]
    by_cases h : m.hp - ((pyInt d : ℤ) : ℚ) < 0
    · rw [if_pos h]
      simp [max_eq_left h.le]
    · rw [if_neg h]
      push_neg at h
      simp [max_eq_right h]
  · intro ha h1 h2
    have hz : pyInt d = 0 := by
      unfold pyInt
      rw [if_pos h1.le]
      exact Int.floor_eq_zero_iff.mpr ⟨h1.le, h2⟩
    unfold mobGetDamage clampHpZero
    rw [if_pos ha]
    simp only [hz, Int.cast_zero, sub_zero]
    rw [if_neg (not_lt.mpr h0)]
  · intro ha
    unfold mobGetDamage clampHpZero
    simp only [ha]
    rw [if_neg (by decide : ¬(false = true)), if_neg (not_lt.mpr h0)]

/-- Witness for C10 (amended) at a concrete input: fractional damage 1/2 on
an alive mob with 7 hp leaves the hit points unchanged. -/
theorem claim_C10_witness :
    (mobGetDamage ⟨7, true⟩ (1/2)).hp = (7 : ℚ) :=
  (claim_C10 ⟨7, true⟩ (1/2) (by norm_num)).2.1 rfl (by norm_num) (by norm_num)

/-! ## Mob attack state machine (`entities.Mob.update`)

`utility.TimeKeeper` measures wall-clock time (`pygame.time.get_ticks()`
milliseconds divided by 1000); the embedding passes the current time in
seconds as an explicit input to each update tick.  The state-machine block
of `Mob.update` reads and writes only `state`, `last_state` and the two
timers, plus the per-tick inputs `world.player.alive`, `detect_player` and
`attack_possible` (the two distance flags computed at the top of `update`);
movement, speed selection, `update_hp`, animation and collider refresh do
not touch these fields. -/

/-- `utility.TimeKeeper`: start time plus optional duration, in seconds. -/
structure TimeKeeper where
  start_time : ℚ
  duration : Option ℚ
deriving DecidableEq, Repr

/-- `TimeKeeper.is_finished(self)`: `True` when the duration is `None`,
otherwise whether the elapsed seconds reached the duration. -/
def TimeKeeper.is_finished (t : TimeKeeper) (now : ℚ) : Bool :=
  match t.duration with
  | none => true
  | some d => decide (d ≤ now - t.start_time)

/-- `entities.MobState`. -/
inductive MobState where
  | idle
  | chase
  | attack_startup
  | attack_execute
  | attack_recovery
  | attack_again
deriving DecidableEq, Repr

/-- The attack-phase durations a mob is constructed with (`attack_startup`
is a float in every subtype; `attack_recovery` can be `None`, which makes
the recovery timer finish immediately). -/
structure MobCfg where
  attack_startup : ℚ
  attack_recovery : Option ℚ
deriving DecidableEq, Repr

/-- The state-machine fields of a `Mob`. -/
structure MobFsm where
  state : MobState
  last_state : MobState
  attack_startup_timer : TimeKeeper
  attack_recovery_timer : TimeKeeper
deriving DecidableEq, Repr

/-- The per-tick inputs of the state-machine block of `Mob.update`. -/
structure MobInput where
  now : ℚ
  player_alive : Bool
  detect_player : Bool
  attack_possible : Bool
deriving DecidableEq, Repr

/-- The transition block of `Mob.update` for an alive player, mirroring the
source's seven sequential `if` statements in order (each later statement
sees the `state` written by the earlier ones, while `last_state` is still
the previous tick's final state). -/
def mobFsmTransitions (cfg : MobCfg) (m : MobFsm) (i : MobInput) : MobFsm :=
  let p1 : MobState × TimeKeeper :=
    if (m.last_state = MobState.idle ∨ m.last_state = MobState.chase)
        ∧ i.detect_player = true ∧ i.attack_possible = true then
      (MobState.attack_startup, ⟨i.now, some cfg.attack_startup⟩)
    else (m.state, m.attack_startup_timer)
  let p2 : MobState × TimeKeeper :=
    if p1.1 = MobState.attack_again then
      (MobState.attack_startup, ⟨i.now, some cfg.attack_startup⟩)
    else p1
  let s3 : MobState :=
    if p2.1 = MobState.attack_startup ∧ ¬i.attack_possible = true then
      MobState.idle
    else p2.1
  let s4 : MobState :=
    if p2.2.is_finished i.now = true ∧ s3 = MobState.attack_startup then
      MobState.attack_execute
    else s3
  let p5 : MobState × TimeKeeper :=
    if m.last_state = MobState.attack_execute ∧ s4 = MobState.attack_execute then
      (MobState.attack_recovery, ⟨i.now, cfg.attack_recovery⟩)
    else (s4, m.attack_recovery_timer)
  let s6 : MobState :=
    if p5.1 = MobState.attack_recovery ∧ p5.2.is_finished i.now = true then
      (if i.attack_possible then MobState.attack_again
       else if i.detect_player then MobState.chase else MobState.idle)
    else p5.1
  let s7 : MobState :=
    if m.last_state = MobState.idle ∧ ¬i.attack_possible = true then
      (if i.detect_player then MobState.chase else MobState.idle)
    else s6
  { state := s7, last_state := m.last_state,
    attack_startup_timer := p2.2, attack_recovery_timer := p5.2 }

/-- One `Mob.update` tick restricted to the state-machine fields: run the
transition block when the player is alive, otherwise force `idle`; in both
cases finish with `self.last_state = self.state`. -/
def mobFsmStep (cfg : MobCfg) (m : MobFsm) (i : MobInput) : MobFsm :=
  let m1 := if i.player_alive = true then mobFsmTransitions cfg m i
            else { m with state := MobState.idle }
  { m1 with last_state := m1.state }

/-- The subtype overrides (`Burster.update`, `Plower.update`,
`BossSelf.update` patterns, …): run the base update, then append the
subtype's attack set to the world pools exactly when the resulting state is
`attack_execute` (Burster: 120 projectiles, Plower: 1 shockwave, …).
Modelled by the number of appended attack objects. -/
def subtypeUpdate (cfg : MobCfg) (spawn : ℕ) (m : MobFsm) (i : MobInput) :
    MobFsm × ℕ :=
  (mobFsmStep cfg m i,
   if (mobFsmStep cfg m i).state = MobState.attack_execute then spawn else 0)

theorem mobFsmStep_last_state (cfg : MobCfg) (m : MobFsm) (i : MobInput) :
    (mobFsmStep cfg m i).last_state = (mobFsmStep cfg m i).state := rfl

/-- **C3.** With the player alive, a mob whose update tick ends in
`attack_execute` spends exactly that one tick there: the very next update
tick unconditionally moves it to `attack_recovery` and starts the recovery
timer (at the new tick's time, with the configured recovery duration); and
the subtype override appends its attack set on exactly the entry tick
(`spawn` objects there, none on the following tick) — the guard is the
comparison of the stored previous state with the current state. -/
theorem claim_C3 (cfg : MobCfg) (spawn : ℕ) (m : MobFsm) (i i' : MobInput)
    (d : ℚ) (hal' : i'.player_alive = true)
    (hrd : cfg.attack_recovery = some d) (hd : 0 < d)
    (hex : (mobFsmStep cfg m i).state = MobState.attack_execute) :
    (mobFsmStep cfg (mobFsmStep cfg m i) i').state = MobState.attack_recovery
    ∧ (mobFsmStep cfg (mobFsmStep cfg m i) i').attack_recovery_timer =
        ⟨i'.now, cfg.attack_recovery⟩
    ∧ (subtypeUpdate cfg spawn m i).2 = spawn
    ∧ (subtypeUpdate cfg spawn (mobFsmStep cfg m i) i').2 = 0 := by
  have hl : (mobFsmStep cfg m i).last_state = MobState.attack_execute := by
    rw [mobFsmStep_last_state, hex]
  set m1 := mobFsmStep cfg m i with hm1
  have hstep : mobFsmStep cfg m1 i' =
      { state := MobState.attack_recovery,
        last_state := MobState.attack_recovery,
        attack_startup_timer := m1.attack_startup_timer,
        attack_recovery_timer := ⟨i'.now, cfg.attack_recovery⟩ } := by
    simp [mobFsmStep, mobFsmTransitions, hal', hex, hl, hrd,
      TimeKeeper.is_finished, hd.not_le]
  refine ⟨by rw [hstep], by rw [hstep], ?_, ?_⟩
  · simp [subtypeUpdate, ← hm1, hex]
  · simp [subtypeUpdate, hstep]

/-- Witness for C3: a Burster-configured mob (startup 1 s, recovery 2 s)
whose startup timer elapses at t = 2 s enters `attack_execute` on that tick,
spawns its 120 projectiles there, and on the next tick (t = 2.1 s) is in
`attack_recovery` having spawned nothing. -/
theorem claim_C3_witness :
    (mobFsmStep ⟨1, some 2⟩
        (mobFsmStep ⟨1, some 2⟩
          ⟨MobState.attack_startup, MobState.attack_startup, ⟨0, some 1⟩, ⟨0, some 0⟩⟩
          ⟨2, true, true, true⟩)
        ⟨21/10, true, true, true⟩).state = MobState.attack_recovery :=
  (claim_C3 ⟨1, some 2⟩ 120
    ⟨MobState.attack_startup, MobState.attack_startup, ⟨0, some 1⟩, ⟨0, some 0⟩⟩
    ⟨2, true, true, true⟩ ⟨21/10, true, true, true⟩ 2 rfl rfl (by norm_num)
    (by with_unfolding_all rfl)).1

/-! ### C9: the full attack cycle under a concrete tick schedule -/

/-- The configuration of claim C9: startup 1.0 s, recovery 0.5 s. -/
def c9Cfg : MobCfg := ⟨1, some (1/2)⟩

/-- A freshly constructed mob: `state = last_state = idle`, both timers
`TimeKeeper(duration=0)` started at construction time 0. -/
def c9Mob : MobFsm := ⟨MobState.idle, MobState.idle, ⟨0, some 0⟩, ⟨0, some 0⟩⟩

/-- `n` update ticks at 0.1 s intervals starting at t = 0, with the player
alive and permanently within both view radius and attack range. -/
def c9Inputs (n : ℕ) : List MobInput :=
  (List.range n).map (fun k => ⟨(k : ℚ) / 10, true, true, true⟩)

def fsmRun (cfg : MobCfg) (m : MobFsm) (ins : List MobInput) : MobFsm :=
  ins.foldl (mobFsmStep cfg) m

/-- The per-tick end states of a run. -/
def fsmStates (cfg : MobCfg) : MobFsm → List MobInput → List MobState
  | _, [] => []
  | m, i :: rest =>
    (mobFsmStep cfg m i).state :: fsmStates cfg (mobFsmStep cfg m i) rest

/-- Counterexample to **C9** as stated: after exactly 1.5 s of simulated
update ticks (16 ticks at 0.1 s, t = 0 … 1.5, player alive and always in
view and attack range, startup 1.0 s, recovery 0.5 s) the mob is still in
`attack_recovery` — it has *not* yet reached `attack_again`: the recovery
timer only starts one tick after the single execute tick (t = 1.1), so it
elapses at t = 1.6, not by 1.5. -/
theorem claim_C9_counterexample :
    (fsmRun c9Cfg c9Mob (c9Inputs 16)).state = MobState.attack_recovery
    ∧ (fsmRun c9Cfg c9Mob (c9Inputs 16)).state ≠ MobState.attack_again := by
  have h : (fsmRun c9Cfg c9Mob (c9Inputs 16)).state = MobState.attack_recovery := by
    with_unfolding_all rfl
  exact ⟨h, by rw [h]; decide⟩

/-- **C9 (amended).** Same scenario, allowing the two extra ticks the
discrete schedule forces: after 1.6 s of 0.1 s ticks (1.5 s plus one tick to
leave `attack_execute` and start the recovery timer, plus the timer's
grid-aligned expiry) the mob has passed through `attack_startup`, has been
in `attack_execute` for exactly one tick, has passed through
`attack_recovery`, and has reached `attack_again`. -/
theorem claim_C9 :
    MobState.attack_startup ∈ fsmStates c9Cfg c9Mob (c9Inputs 17)
    ∧ (fsmStates c9Cfg c9Mob (c9Inputs 17)).count MobState.attack_execute = 1
    ∧ MobState.attack_recovery ∈ fsmStates c9Cfg c9Mob (c9Inputs 17)
    ∧ (fsmRun c9Cfg c9Mob (c9Inputs 17)).state = MobState.attack_again := by
  have h : fsmStates c9Cfg c9Mob (c9Inputs 17) =
      [MobState.attack_startup, MobState.attack_startup, MobState.attack_startup,
       MobState.attack_startup, MobState.attack_startup, MobState.attack_startup,
       MobState.attack_startup, MobState.attack_startup, MobState.attack_startup,
       MobState.attack_startup, MobState.attack_execute, MobState.attack_recovery,
       MobState.attack_recovery, MobState.attack_recovery, MobState.attack_recovery,
       MobState.attack_recovery, MobState.attack_again] := by
    with_unfolding_all rfl
  refine ⟨by rw [h]; decide, by rw [h]; decide, by rw [h]; decide, ?_⟩
  with_unfolding_all rfl

/-! ## Projectile lifetime (`entities.Projectile.update`) -/

/-- `entities.Projectile`: position, launch origin, constant velocity
components (`pygame.Vector2.from_polar((vel, angle))` yields a fixed
`(vx, vy)` for a projectile's constant speed and angle), maximum travel
distance and alive flag. -/
structure Projectile where
  x : ℚ
  y : ℚ
  origin_x : ℚ
  origin_y : ℚ
  vx : ℚ
  vy : ℚ
  shoot_distance : ℚ
  alive : Bool
deriving DecidableEq, Repr

/-- Squared Euclidean distance.  `utility.distance` returns
`sqrt(distSq …)`; `Projectile.update` compares it with the nonnegative
`shoot_distance`, so `distance > shoot_distance` is embedded exactly as
`shoot_distance² < distSq` (all `shoot_distance` values in the code are
nonnegative: 500, 800, 1000, …). -/
def distSq (x1 y1 x2 y2 : ℚ) : ℚ :=
  (x2 - x1) ^ 2 + (y2 - y1) ^ 2

/-- `Projectile.update(self, dt)`: if the displacement from the origin
exceeds `shoot_distance`, clear `alive` and return without moving;
otherwise advance the position by `velocity * dt` (the collider refresh
does not affect these fields). -/
def projectileUpdate (p : Projectile) (dt : ℚ) : Projectile :=
  if p.shoot_distance ^ 2 < distSq p.x p.y p.origin_x p.origin_y then
    { p with alive := false }
  else
    { p with x := p.x + p.vx * dt, y := p.y + p.vy * dt }

/-- `Projectile.__init__` at `(x, y)`: the origin is the launch position and
the projectile starts alive. -/
def mkProjectile (x y vx vy shoot : ℚ) : Projectile :=
  ⟨x, y, x, y, vx, vy, shoot, true⟩

def projectileRun (p : Projectile) (dts : List ℚ) : Projectile :=
  dts.foldl projectileUpdate p

theorem projectileUpdate_origin_x (p : Projectile) (dt : ℚ) :
    (projectileUpdate p dt).origin_x = p.origin_x := by
  unfold projectileUpdate
  split <;> rfl

theorem projectileUpdate_origin_y (p : Projectile) (dt : ℚ) :
    (projectileUpdate p dt).origin_y = p.origin_y := by
  unfold projectileUpdate
  split <;> rfl

theorem projectileUpdate_shoot (p : Projectile) (dt : ℚ) :
    (projectileUpdate p dt).shoot_distance = p.shoot_distance := by
  unfold projectileUpdate
  split <;> rfl

theorem projectileRun_origin_x (dts : List ℚ) (p : Projectile) :
    (projectileRun p dts).origin_x = p.origin_x := by
  induction dts generalizing p with
  | nil => rfl
  | cons dt rest ih =>
    rw [projectileRun, List.foldl_cons, ← projectileRun, ih,
      projectileUpdate_origin_x]

theorem projectileRun_origin_y (dts : List ℚ) (p : Projectile) :
    (projectileRun p dts).origin_y = p.origin_y := by
  induction dts generalizing p with
  | nil => rfl
  | cons dt rest ih =>
    rw [projectileRun, List.foldl_cons, ← projectileRun, ih,
      projectileUpdate_origin_y]

theorem projectileRun_shoot (dts : List ℚ) (p : Projectile) :
    (projectileRun p dts).shoot_distance = p.shoot_distance := by
  induction dts generalizing p with
  | nil => rfl
  | cons dt rest ih =>
    rw [projectileRun, List.foldl_cons, ← projectileRun, ih,
      projectileUpdate_shoot]

/-- A dead projectile's displacement already exceeds its range. -/
def projDeadInv (p : Projectile) : Prop :=
  p.alive = false →
    p.shoot_distance ^ 2 < distSq p.x p.y p.origin_x p.origin_y

theorem projectileUpdate_inv (p : Projectile) (dt : ℚ) (h : projDeadInv p) :
    projDeadInv (projectileUpdate p dt) := by
  unfold projDeadInv projectileUpdate at *
  split
  next hgt => intro _; simpa using hgt
  next hle =>
    intro hdead
    simp only at hdead
    exact absurd (h hdead) hle

theorem projectileRun_inv (dts : List ℚ) (p : Projectile) (h : projDeadInv p) :
    projDeadInv (projectileRun p dts) := by
  induction dts generalizing p with
  | nil => exact h
  | cons dt rest ih =>
    exact ih (projectileUpdate p dt) (projectileUpdate_inv p dt h)

/-- **C4.** A projectile launched at the origin with range 1000 and constant
velocity: after any sequence of updates, if it is not alive then its
displacement from the origin exceeds 1000 (`1000² < x² + y²`); equivalently,
while the displacement is at most 1000 it is still alive; and once the
displacement exceeds 1000, the very next update clears the alive flag. -/
theorem claim_C4 (vx vy dt : ℚ) (dts : List ℚ) :
    ((projectileRun (mkProjectile 0 0 vx vy 1000) dts).alive = false →
      (1000 : ℚ) ^ 2 <
        distSq (projectileRun (mkProjectile 0 0 vx vy 1000) dts).x
          (projectileRun (mkProjectile 0 0 vx vy 1000) dts).y 0 0)
    ∧ (distSq (projectileRun (mkProjectile 0 0 vx vy 1000) dts).x
          (projectileRun (mkProjectile 0 0 vx vy 1000) dts).y 0 0 ≤ 1000 ^ 2 →
        (projectileRun (mkProjectile 0 0 vx vy 1000) dts).alive = true)
    ∧ ((1000 : ℚ) ^ 2 <
        distSq (projectileRun (mkProjectile 0 0 vx vy 1000) dts).x
          (projectileRun (mkProjectile 0 0 vx vy 1000) dts).y 0 0 →
        (projectileUpdate (projectileRun (mkProjectile 0 0 vx vy 1000) dts) dt).alive
          = false) := by
  have hox := projectileRun_origin_x dts (mkProjectile 0 0 vx vy 1000)
  have hoy := projectileRun_origin_y dts (mkProjectile 0 0 vx vy 1000)
  have hsh := projectileRun_shoot dts (mkProjectile 0 0 vx vy 1000)
  have hinv := projectileRun_inv dts (mkProjectile 0 0 vx vy 1000)
    (by intro hdead; simp [mkProjectile] at hdead)
  unfold projDeadInv at hinv
  rw [hox, hoy, hsh] at hinv
  simp only [mkProjectile] at hinv
  refine ⟨hinv, ?_, ?_⟩
  · intro hle
    cases halive : (projectileRun (mkProjectile 0 0 vx vy 1000) dts).alive
    · exact absurd (hinv halive) (not_lt.mpr hle)
    · rfl
  · intro hgt
    unfold projectileUpdate
    rw [if_pos (by rw [hsh, hox, hoy]; simpa [mkProjectile] using hgt)]

/-- Witness for C4: velocity (600, 0), two 1-second updates take the
projectile to x = 1200, displacement 1200 > 1000; the next update reports
not-alive. -/
theorem claim_C4_witness :
    (projectileUpdate (projectileRun (mkProjectile 0 0 600 0 1000) [1, 1]) 1).alive
      = false :=
  (claim_C4 600 0 1 [1, 1]).2.2
    (by norm_num [projectileRun, projectileUpdate, mkProjectile, distSq])

/-! ## Player damage resolution (`player.Player._update_hp`)

The mob-attack pool holds `Projectile` objects (no `timer` attribute; these
are the timer-less one-shot attacks) and `ShockWave` objects (which carry a
re-trigger `timer` of duration `attack_speed`).  Whether a given attack's
collider overlaps the player this pass is a geometric fact abstracted as the
boolean `collides` recorded on the attack. -/

/-- The hit-point component of the `Player`. -/
structure PlayerHP where
  hp : ℚ
  defence : ℚ
  alive : Bool
deriving DecidableEq, Repr

/-- The final clamp of `Player.get_damage`: `if self.hp < 0: self.hp = 0`. -/
def playerClampHp (p : PlayerHP) : PlayerHP :=
  if p.hp < 0 then { p with hp := 0 } else p

/-- `Player.get_damage(self, damage)`: if alive and defence is not 100,
subtract the defence-adjusted damage (camera shake and sound dropped); then
clamp negative hit points to zero. -/
def playerGetDamage (p : PlayerHP) (damage : ℚ) : PlayerHP :=
  playerClampHp
    (if p.alive = true ∧ p.defence ≠ 100 then
      { p with hp := p.hp - damage * ((100 - p.defence) / 100) }
    else p)

/-- An element of `world.mob_attack`: a one-shot `Projectile` (no `timer`
attribute) or a `ShockWave` (with its re-trigger `timer`), together with
this pass's collision outcome against the player. -/
inductive MobAttack where
  | proj (damage : ℚ) (collides : Bool)
  | wave (damage : ℚ) (timer : TimeKeeper) (collides : Bool)
deriving DecidableEq, Repr

def isProjectile : MobAttack → Bool
  | MobAttack.proj _ _ => true
  | MobAttack.wave _ _ _ => false

/-- The collision loop of `Player._update_hp`: iterate the pool snapshot in
order; a colliding timer-bearing attack whose timer has finished deals
damage, is flagged for removal and has its timer reset to the current time;
a colliding timer-less attack deals damage and is flagged; everything else
is untouched.  Returns the final player state and each attack (with any
timer reset applied) paired with its removal flag. -/
def playerUpdateHpAux (now : ℚ) :
    PlayerHP → List MobAttack → PlayerHP × List (MobAttack × Bool)
  | p, [] => (p, [])
  | p, MobAttack.proj d c :: rest =>
    if c = true then
      ((playerUpdateHpAux now (playerGetDamage p d) rest).1,
       (MobAttack.proj d c, true) ::
         (playerUpdateHpAux now (playerGetDamage p d) rest).2)
    else
      ((playerUpdateHpAux now p rest).1,
       (MobAttack.proj d c, false) :: (playerUpdateHpAux now p rest).2)
  | p, MobAttack.wave d t c :: rest =>
    if c = true ∧ t.is_finished now = true then
      ((playerUpdateHpAux now (playerGetDamage p d) rest).1,
       (MobAttack.wave d ⟨now, t.duration⟩ c, true) ::
         (playerUpdateHpAux now (playerGetDamage p d) rest).2)
    else
      ((playerUpdateHpAux now p rest).1,
       (MobAttack.wave d t c, false) :: (playerUpdateHpAux now p rest).2)

/-- `Player._update_hp(self, world)`: run the collision loop, then remove
from the pool exactly the flagged attacks that are `Projectile` instances
(`isinstance(attack, entities.Projectile)`); flagged `ShockWave`s stay. -/
def playerUpdateHp (now : ℚ) (p : PlayerHP) (pool : List MobAttack) :
    PlayerHP × List MobAttack :=
  ((playerUpdateHpAux now p pool).1,
   (playerUpdateHpAux now p pool).2.filterMap
     (fun ab => if ab.2 = true ∧ isProjectile ab.1 = true then none else some ab.1))

/-- Whether an attack deals damage this pass, per the spec: a colliding
timer-less projectile always, a colliding timer-bearing hazard only when its
timer has elapsed. -/
def attackTriggers (now : ℚ) : MobAttack → Bool
  | MobAttack.proj _ c => c
  | MobAttack.wave _ t c => c && t.is_finished now

def attackDamage : MobAttack → ℚ
  | MobAttack.proj d _ => d
  | MobAttack.wave d _ _ => d

/-- The damages applied this pass, in pool order. -/
def triggeredDamages (now : ℚ) (pool : List MobAttack) : List ℚ :=
  pool.filterMap (fun a =>
    if attackTriggers now a = true then some (attackDamage a) else none)

/-- The pool after the pass, per the spec: colliding projectiles are
removed; hazards always stay, with the timer reset (to fire again one
cadence later) exactly when they dealt damage. -/
def poolAfter (now : ℚ) (pool : List MobAttack) : List MobAttack :=
  pool.filterMap (fun a =>
    match a with
    | MobAttack.proj d c => if c = true then none else some (MobAttack.proj d c)
    | MobAttack.wave d t c =>
      some (MobAttack.wave d
        (if c = true ∧ t.is_finished now = true then ⟨now, t.duration⟩ else t) c))

theorem playerUpdateHpAux_fst (now : ℚ) (pool : List MobAttack) (p : PlayerHP) :
    (playerUpdateHpAux now p pool).1 =
      (triggeredDamages now pool).foldl playerGetDamage p := by
  induction pool generalizing p with
  | nil => rfl
  | cons a rest ih =>
    cases a with
    | proj d c =>
      by_cases hc : c = true <;>
        simp [playerUpdateHpAux, triggeredDamages, attackTriggers, attackDamage,
          hc, ih]
    | wave d t c =>
      by_cases hc : c = true ∧ t.is_finished now = true
      · simp [playerUpdateHpAux, triggeredDamages, attackTriggers, attackDamage,
          hc.1, hc.2, ih]
      · rw [not_and_or] at hc
        rcases hc with hc | hc <;>
          simp_all [playerUpdateHpAux, triggeredDamages, attackTriggers,
            attackDamage, ih]

theorem playerUpdateHpAux_snd (now : ℚ) (pool : List MobAttack) (p : PlayerHP) :
    (playerUpdateHpAux now p pool).2.filterMap
      (fun ab => if ab.2 = true ∧ isProjectile ab.1 = true then none else some ab.1)
      = poolAfter now pool := by
  induction pool generalizing p with
  | nil => rfl
  | cons a rest ih =>
    simp only [poolAfter, isProjectile] at ih ⊢
    cases a with
    | proj d c =>
      by_cases hc : c = true <;>
        simp [playerUpdateHpAux, hc, ih]
    | wave d t c =>
      by_cases hc : c = true ∧ t.is_finished now = true
      · simp [playerUpdateHpAux, hc.1, hc.2, ih]
      · rw [not_and_or] at hc
        rcases hc with hc | hc <;> simp_all [playerUpdateHpAux, ih]

/-- **C8.** One pass of the player's damage resolution equals its
specification: the player takes, in pool order, exactly the damages of the
colliding timer-less projectiles and of the colliding timer-bearing hazards
whose timer has elapsed; the resulting pool removes exactly the colliding
projectiles, while every hazard stays in the pool — with its timer reset to
the current time exactly when it dealt damage, so it can deal damage again
at its fixed cadence. -/
theorem claim_C8 (now : ℚ) (p : PlayerHP) (pool : List MobAttack) :
    playerUpdateHp now p pool =
      ((triggeredDamages now pool).foldl playerGetDamage p,
       poolAfter now pool) := by
  unfold playerUpdateHp
  rw [playerUpdateHpAux_fst, playerUpdateHpAux_snd]

/-! ## Chunk decoration generation (`world.Chunk._generate`)

Python's `random` module is a single global stream.  `Chunk._generate`
begins with `random.seed(f"SelementWorldSeed{seed}chunk{x}_{y}")`, which
*replaces* whatever state the global stream had; every later draw in the
method comes from the reseeded stream.  The embedding makes this explicit:
the generator type `σ` and its operations are abstract (Mersenne-Twister
internals are irrelevant), the method receives the ambient stream state as
an input, and its first action is to replace it with the state seeded from
the chunk string. -/

/-- The `random`-module operations `Chunk._generate` uses, over an abstract
stream-state type `σ`: `random.seed(string)`, `random.random()`,
`random.randint(a, b)` and the index drawn by `random.choice` on an
`n`-element list.  All are deterministic state transformers. -/
structure RngOps (σ : Type) where
  seedStr : String → σ
  randFloat : σ → ℚ × σ
  randInt : ℤ → ℤ → σ → ℤ × σ
  choiceN : ℕ → σ → ℕ × σ

/-- A decoration entity as produced by `Chunk._generate`: integer position
(chunk centre plus `randint` jitter) and symbolic name.  The image handle is
determined by the name and is dropped. -/
structure GEntity where
  x : ℤ
  y : ℤ
  name : String
deriving DecidableEq, Repr

/-- The parts of the `World` that `Chunk._generate` reads: the world seed,
the chunk size, and the noise configuration consulted through
`biome.get_biome` at each jittered coordinate. -/
structure GenWorld where
  seed : ℤ
  chunk_size : ℤ
  noise : NoiseCfg

/-- `f"SelementWorldSeed{seed}chunk{x}_{y}"`. -/
def seedString (seed cx cy : ℤ) : String :=
  "SelementWorldSeed" ++ toString seed ++ "chunk" ++ toString cx ++ "_" ++
    toString cy

/-- The coordinate jitter drawn twice per placement:
`coord + random.randint(-chunk_size // 2, chunk_size // 2)`. -/
def randCoord {σ : Type} (ops : RngOps σ) (gw : GenWorld) (cx cy : ℤ)
    (g : σ) : (ℤ × ℤ) × σ :=
  let rx := ops.randInt (-gw.chunk_size / 2) (gw.chunk_size / 2) g
  let ry := ops.randInt (-gw.chunk_size / 2) (gw.chunk_size / 2) rx.2
  ((cx + rx.1, cy + ry.1), ry.2)

/-- One iteration of the grass/seaweed loop: with probability 0.8 pick a
jittered coordinate; on dirt place one of the two grass variants (a
`random.choice` of two), on water place seaweed. -/
def grassStep {σ : Type} (ops : RngOps σ) (gw : GenWorld) (cx cy : ℤ)
    (acc : σ × List GEntity) : σ × List GEntity :=
  let r := ops.randFloat acc.1
  if (0.2 : ℚ) < r.1 then
    let pc := randCoord ops gw cx cy r.2
    let ob := get_biome gw.noise (pc.1.1 : ℚ) (pc.1.2 : ℚ)
    if ob = Biome.dirt then
      let ci := ops.choiceN 2 pc.2
      (ci.2, acc.2 ++ [⟨pc.1.1, pc.1.2, if ci.1 = 0 then "grass" else "dry_grass"⟩])
    else if ob = Biome.water then
      (pc.2, acc.2 ++ [⟨pc.1.1, pc.1.2, "seaweed"⟩])
    else (pc.2, acc.2)
  else (r.2, acc.2)

/-- The tree block of one iteration of the 32-round loop: with probability
0.5 pick a coordinate; on dirt place one of the four tree variants. -/
def treeStep {σ : Type} (ops : RngOps σ) (gw : GenWorld) (cx cy : ℤ)
    (acc : σ × List GEntity) : σ × List GEntity :=
  let r := ops.randFloat acc.1
  if (0.5 : ℚ) < r.1 then
    let pc := randCoord ops gw cx cy r.2
    let ob := get_biome gw.noise (pc.1.1 : ℚ) (pc.1.2 : ℚ)
    if ob = Biome.dirt then
      let ci := ops.choiceN 4 pc.2
      (ci.2, acc.2 ++ [⟨pc.1.1, pc.1.2,
        if ci.1 = 0 then "oak_tree"
        else if ci.1 = 1 then "birch_tree"
        else if ci.1 = 2 then "acacia_tree"
        else "jungle_tree"⟩])
    else (pc.2, acc.2)
  else (r.2, acc.2)

/-- The fire block: with probability 0.7 pick a coordinate; on fire biome
draw again — with probability 0.999 a `random.choice` between the two
common flames, otherwise (no further draw) the rare blue flame. -/
def fireStep {σ : Type} (ops : RngOps σ) (gw : GenWorld) (cx cy : ℤ)
    (acc : σ × List GEntity) : σ × List GEntity :=
  let r := ops.randFloat acc.1
  if (0.3 : ℚ) < r.1 then
    let pc := randCoord ops gw cx cy r.2
    let ob := get_biome gw.noise (pc.1.1 : ℚ) (pc.1.2 : ℚ)
    if ob = Biome.fire then
      let r2 := ops.randFloat pc.2
      if (0.001 : ℚ) < r2.1 then
        let ci := ops.choiceN 2 r2.2
        (ci.2, acc.2 ++ [⟨pc.1.1, pc.1.2, if ci.1 = 0 then "fire" else "strong_fire"⟩])
      else
        (r2.2, acc.2 ++ [⟨pc.1.1, pc.1.2, "blue_fire"⟩])
    else (pc.2, acc.2)
  else (r.2, acc.2)

/-- The coral block: with probability 0.4 pick a coordinate; on water place
one of the three coral variants. -/
def coralStep {σ : Type} (ops : RngOps σ) (gw : GenWorld) (cx cy : ℤ)
    (acc : σ × List GEntity) : σ × List GEntity :=
  let r := ops.randFloat acc.1
  if (0.6 : ℚ) < r.1 then
    let pc := randCoord ops gw cx cy r.2
    let ob := get_biome gw.noise (pc.1.1 : ℚ) (pc.1.2 : ℚ)
    if ob = Biome.water then
      let ci := ops.choiceN 3 pc.2
      (ci.2, acc.2 ++ [⟨pc.1.1, pc.1.2,
        if ci.1 = 0 then "red_coral_reef"
        else if ci.1 = 1 then "pink_coral_reef"
        else "yellow_coral_reef"⟩])
    else (pc.2, acc.2)
  else (r.2, acc.2)

/-- `Chunk._generate(self)` for the chunk centred at `(cx, cy)`: reseed the
global stream from the chunk string (discarding the ambient state), run the
grass loop `tile_size` times, then 32 rounds of tree/fire/coral, then the
rare portal placement.  Returns the decoration entity list in placement
order. -/
def chunkGenerate {σ : Type} (ops : RngOps σ) (gw : GenWorld) (cx cy : ℤ)
    (_ambient : σ) : List GEntity :=
  let g0 := ops.seedStr (seedString gw.seed cx cy)
  let s1 := (List.range gw.noise.tile_size.toNat).foldl
    (fun acc _ => grassStep ops gw cx cy acc) (g0, [])
  let s2 := (List.range 32).foldl
    (fun acc _ => coralStep ops gw cx cy (fireStep ops gw cx cy
      (treeStep ops gw cx cy acc))) s1
  let r := ops.randFloat s2.1
  if (0.99 : ℚ) < r.1 then
    let pc := randCoord ops gw cx cy r.2
    s2.2 ++ [⟨pc.1.1, pc.1.2, "portal"⟩]
  else s2.2

/-- **C6.** Chunk generation is a deterministic function of the world (its
seed and seed-derived noise fields) and the chunk coordinate: whatever state
the global random stream is in when generation runs (`a1` versus `a2` —
e.g. a first generation versus a regeneration after unloading), the produced
decoration set is identical (same list, hence same entity count, names and
positions), because the stream is reseeded from the string combining world
seed and chunk coordinate before any draw. -/
theorem claim_C6 {σ : Type} (ops : RngOps σ) (gw : GenWorld) (cx cy : ℤ)
    (a1 a2 : σ) :
    chunkGenerate ops gw cx cy a1 = chunkGenerate ops gw cx cy a2 := rfl

/-! ## Chunk streaming (`world.World._load_chunks_around_player`,
`world.World.update`)

Only the set of loaded chunk coordinates (the keys of
`self.loaded_chunks`) matters to claim C7; the `Chunk` values are
irrelevant, so the dictionary is modelled by the `Finset` of its keys. -/

/-- `world.CHUNK_SIZE`. -/
def CHUNK_SIZE : ℤ := 1024

/-- `world.LOAD_CHUNK_SIZE`. -/
def LOAD_CHUNK_SIZE : ℤ := 3

/-- `world._ensure_odd(n)`: `n if n % 2 else n + 1`. -/
def ensure_odd (n : ℤ) : ℤ :=
  if n % 2 ≠ 0 then n else n + 1

/-- `world._ring_range(size_odd)`: `range(-half, half + 1)` with
`half = size_odd // 2`, as the list `[-half, …, half]`. -/
def ring_range (size_odd : ℤ) : List ℤ :=
  (List.range (2 * (size_odd / 2) + 1).toNat).map
    (fun k => (k : ℤ) - size_odd / 2)

/-- `World._to_chunk_center(x, y)`:
`floor(c / chunk_size) * chunk_size + chunk_size // 2` per axis. -/
def to_chunk_center (x y : ℚ) : ℤ × ℤ :=
  (⌊x / (CHUNK_SIZE : ℚ)⌋ * CHUNK_SIZE + CHUNK_SIZE / 2,
   ⌊y / (CHUNK_SIZE : ℚ)⌋ * CHUNK_SIZE + CHUNK_SIZE / 2)

/-- The `need` list of `_load_chunks_around_player`: the chunk centres of
the odd×odd ring around the player position, in loop order. -/
def neededChunks (px py : ℚ) : List (ℤ × ℤ) :=
  (ring_range (ensure_odd LOAD_CHUNK_SIZE)).flatMap (fun (i : ℤ) =>
    (ring_range (ensure_odd LOAD_CHUNK_SIZE)).map (fun (j : ℤ) =>
      to_chunk_center (px + (i : ℚ) * (CHUNK_SIZE : ℚ))
        (py + (j : ℚ) * (CHUNK_SIZE : ℚ))))

/-- `World._load_chunks_around_player`, on the key set: delete every loaded
coordinate not in `need`, then insert (generate) every needed coordinate not
yet loaded. -/
def loadChunksAround (loaded : Finset (ℤ × ℤ)) (px py : ℚ) :
    Finset (ℤ × ℤ) :=
  (neededChunks px py).foldl (fun s c => insert c s)
    (loaded.filter (fun c => c ∈ neededChunks px py))

/-- The chunk-reconciliation step of `World.update`: recompute the player's
current chunk centre; reload around the player only when it differs from the
stored `last_chunk` (which is then updated at the end of the frame).  State:
(loaded key set, `last_chunk`). -/
def updateChunks (st : Finset (ℤ × ℤ) × (ℤ × ℤ)) (px py : ℚ) :
    Finset (ℤ × ℤ) × (ℤ × ℤ) :=
  if st.2 ≠ to_chunk_center px py then
    (loadChunksAround st.1 px py, to_chunk_center px py)
  else (st.1, to_chunk_center px py)

/-- The chunk index of a coordinate (`floor(x / chunk_size)`). -/
def chunkIdx (x : ℚ) : ℤ :=
  ⌊x / (CHUNK_SIZE : ℚ)⌋

/-- The spec's description of the loaded set: the 3×3 block of chunk
centres around the chunk index `(a, b)` of the player. -/
def centeredBlock (a b : ℤ) : Finset (ℤ × ℤ) :=
  ((Finset.Icc (a - 1) (a + 1)) ×ˢ (Finset.Icc (b - 1) (b + 1))).image
    (fun p => (p.1 * CHUNK_SIZE + CHUNK_SIZE / 2,
               p.2 * CHUNK_SIZE + CHUNK_SIZE / 2))

theorem chunkCenterOfIdx_inj :
    Function.Injective (fun p : ℤ × ℤ =>
      (p.1 * CHUNK_SIZE + CHUNK_SIZE / 2, p.2 * CHUNK_SIZE + CHUNK_SIZE / 2)) := by
  intro p q h
  cases p
  cases q
  simp only [CHUNK_SIZE, Prod.mk.injEq] at h ⊢
  omega

theorem ring_range_three : ring_range (ensure_odd LOAD_CHUNK_SIZE) = [-1, 0, 1] := by
  decide

theorem to_chunk_center_add (px py : ℚ) (i j : ℤ) :
    to_chunk_center (px + (i : ℚ) * (CHUNK_SIZE : ℚ))
        (py + (j : ℚ) * (CHUNK_SIZE : ℚ)) =
      ((chunkIdx px + i) * CHUNK_SIZE + CHUNK_SIZE / 2,
       (chunkIdx py + j) * CHUNK_SIZE + CHUNK_SIZE / 2) := by
  unfold to_chunk_center chunkIdx
  have hcs : ((CHUNK_SIZE : ℤ) : ℚ) ≠ 0 := by norm_num [CHUNK_SIZE]
  have hx : (px + (i : ℚ) * (CHUNK_SIZE : ℚ)) / (CHUNK_SIZE : ℚ) =
      px / (CHUNK_SIZE : ℚ) + (i : ℚ) := by
    rw [add_div, mul_div_assoc, div_self hcs, mul_one]
  have hy : (py + (j : ℚ) * (CHUNK_SIZE : ℚ)) / (CHUNK_SIZE : ℚ) =
      py / (CHUNK_SIZE : ℚ) + (j : ℚ) := by
    rw [add_div, mul_div_assoc, div_self hcs, mul_one]
  rw [hx, hy, Int.floor_add_int, Int.floor_add_int]

theorem mem_neededChunks (px py : ℚ) (c : ℤ × ℤ) :
    c ∈ neededChunks px py ↔
      ∃ i j : ℤ, -1 ≤ i ∧ i ≤ 1 ∧ -1 ≤ j ∧ j ≤ 1 ∧
        c = ((chunkIdx px + i) * CHUNK_SIZE + CHUNK_SIZE / 2,
             (chunkIdx py + j) * CHUNK_SIZE + CHUNK_SIZE / 2) := by
  unfold neededChunks
  rw [ring_range_three]
  constructor
  · intro hc
    rw [List.mem_flatMap] at hc
    obtain ⟨i, hi, hc⟩ := hc
    rw [List.mem_map] at hc
    obtain ⟨j, hj, hc⟩ := hc
    simp only [List.mem_cons, List.mem_singleton, List.not_mem_nil,
      or_false] at hi hj
    refine ⟨i, j, by omega, by omega, by omega, by omega, ?_⟩
    rw [← hc, to_chunk_center_add]
  · rintro ⟨i, j, hi1, hi2, hj1, hj2, rfl⟩
    rw [List.mem_flatMap]
    refine ⟨i, by simp only [List.mem_cons, List.mem_singleton]; omega, ?_⟩
    rw [List.mem_map]
    exact ⟨j, by simp only [List.mem_cons, List.mem_singleton]; omega,
      to_chunk_center_add px py i j⟩

theorem mem_centeredBlock (a b : ℤ) (c : ℤ × ℤ) :
    c ∈ centeredBlock a b ↔
      ∃ i j : ℤ, -1 ≤ i ∧ i ≤ 1 ∧ -1 ≤ j ∧ j ≤ 1 ∧
        c = ((a + i) * CHUNK_SIZE + CHUNK_SIZE / 2,
             (b + j) * CHUNK_SIZE + CHUNK_SIZE / 2) := by
  unfold centeredBlock
  rw [Finset.mem_image]
  constructor
  · rintro ⟨p, hp, rfl⟩
    rw [Finset.mem_product, Finset.mem_Icc, Finset.mem_Icc] at hp
    refine ⟨p.1 - a, p.2 - b, by omega, by omega, by omega, by omega, ?_⟩
    have h1 : a + (p.1 - a) = p.1 := by omega
    have h2 : b + (p.2 - b) = p.2 := by omega
    rw [h1, h2]
  · rintro ⟨i, j, hi1, hi2, hj1, hj2, rfl⟩
    refine ⟨(a + i, b + j), ?_, rfl⟩
    rw [Finset.mem_product, Finset.mem_Icc, Finset.mem_Icc]
    exact ⟨⟨by omega, by omega⟩, by omega, by omega⟩

theorem neededChunks_toFinset (px py : ℚ) :
    (neededChunks px py).toFinset = centeredBlock (chunkIdx px) (chunkIdx py) := by
  ext c
  rw [List.mem_toFinset, mem_neededChunks, mem_centeredBlock]

theorem foldl_insert_eq_union (l : List (ℤ × ℤ)) (s : Finset (ℤ × ℤ)) :
    l.foldl (fun t c => insert c t) s = s ∪ l.toFinset := by
  induction l generalizing s with
  | nil => simp
  | cons c rest ih =>
    rw [List.foldl_cons, ih]
    ext d
    simp only [Finset.mem_union, Finset.mem_insert, List.toFinset_cons,
      List.mem_toFinset]
    tauto

theorem loadChunksAround_eq (loaded : Finset (ℤ × ℤ)) (px py : ℚ) :
    loadChunksAround loaded px py = centeredBlock (chunkIdx px) (chunkIdx py) := by
  unfold loadChunksAround
  rw [foldl_insert_eq_union, neededChunks_toFinset]
  ext c
  simp only [Finset.mem_union, Finset.mem_filter, List.mem_toFinset]
  constructor
  · rintro (⟨_, hc⟩ | hc)
    · rw [← neededChunks_toFinset, List.mem_toFinset]
      exact hc
    · exact hc
  · intro hc
    exact Or.inr hc

theorem centeredBlock_card (a b : ℤ) : (centeredBlock a b).card = 9 := by
  unfold centeredBlock
  rw [Finset.card_image_of_injective _ chunkCenterOfIdx_inj,
    Finset.card_product, Int.card_Icc, Int.card_Icc]
  have h1 : a + 1 + 1 - (a - 1) = 3 := by ring
  have h2 : b + 1 + 1 - (b - 1) = 3 := by ring
  rw [h1, h2]
  rfl

theorem centeredBlock_sdiff_card (a b a2 b2 : ℤ)
    (h : (a2 = a + 1 ∧ b2 = b) ∨ (a2 = a - 1 ∧ b2 = b)
       ∨ (a2 = a ∧ b2 = b + 1) ∨ (a2 = a ∧ b2 = b - 1)) :
    (centeredBlock a2 b2 \ centeredBlock a b).card = 3 := by
  unfold centeredBlock
  rw [← Finset.image_sdiff _ _ chunkCenterOfIdx_inj,
    Finset.card_image_of_injective _ chunkCenterOfIdx_inj]
  rcases h with ⟨h1, h2⟩ | ⟨h1, h2⟩ | ⟨h1, h2⟩ | ⟨h1, h2⟩ <;> rw [h1, h2]
  · have he : (Finset.Icc (a + 1 - 1) (a + 1 + 1) ×ˢ Finset.Icc (b - 1) (b + 1)) \
        (Finset.Icc (a - 1) (a + 1) ×ˢ Finset.Icc (b - 1) (b + 1)) =
        ({a + 2} : Finset ℤ) ×ˢ Finset.Icc (b - 1) (b + 1) := by
      ext c
      simp only [Finset.mem_sdiff, Finset.mem_product, Finset.mem_Icc,
        Finset.mem_singleton]
      omega
    rw [he, Finset.card_product, Finset.card_singleton, Int.card_Icc]
    have h2 : b + 1 + 1 - (b - 1) = 3 := by ring
    rw [h2]
    rfl
  · have he : (Finset.Icc (a - 1 - 1) (a - 1 + 1) ×ˢ Finset.Icc (b - 1) (b + 1)) \
        (Finset.Icc (a - 1) (a + 1) ×ˢ Finset.Icc (b - 1) (b + 1)) =
        ({a - 2} : Finset ℤ) ×ˢ Finset.Icc (b - 1) (b + 1) := by
      ext c
      simp only [Finset.mem_sdiff, Finset.mem_product, Finset.mem_Icc,
        Finset.mem_singleton]
      omega
    rw [he, Finset.card_product, Finset.card_singleton, Int.card_Icc]
    have h2 : b + 1 + 1 - (b - 1) = 3 := by ring
    rw [h2]
    rfl
  · have he : (Finset.Icc (a - 1) (a + 1) ×ˢ Finset.Icc (b + 1 - 1) (b + 1 + 1)) \
        (Finset.Icc (a - 1) (a + 1) ×ˢ Finset.Icc (b - 1) (b + 1)) =
        Finset.Icc (a - 1) (a + 1) ×ˢ ({b + 2} : Finset ℤ) := by
      ext c
      simp only [Finset.mem_sdiff, Finset.mem_product, Finset.mem_Icc,
        Finset.mem_singleton]
      omega
    rw [he, Finset.card_product, Finset.card_singleton, Int.card_Icc]
    have h2 : a + 1 + 1 - (a - 1) = 3 := by ring
    rw [h2]
    rfl
  · have he : (Finset.Icc (a - 1) (a + 1) ×ˢ Finset.Icc (b - 1 - 1) (b - 1 + 1)) \
        (Finset.Icc (a - 1) (a + 1) ×ˢ Finset.Icc (b - 1) (b + 1)) =
        Finset.Icc (a - 1) (a + 1) ×ˢ ({b - 2} : Finset ℤ) := by
      ext c
      simp only [Finset.mem_sdiff, Finset.mem_product, Finset.mem_Icc,
        Finset.mem_singleton]
      omega
    rw [he, Finset.card_product, Finset.card_singleton, Int.card_Icc]
    have h2 : a + 1 + 1 - (a - 1) = 3 := by ring
    rw [h2]
    rfl

theorem updateChunks_same (L : Finset (ℤ × ℤ)) (c : ℤ × ℤ) (px py : ℚ)
    (h : to_chunk_center px py = c) : updateChunks (L, c) px py = (L, c) := by
  unfold updateChunks
  simp [h]

theorem updateChunks_foldl_same (ps : List (ℚ × ℚ)) (L : Finset (ℤ × ℤ))
    (c : ℤ × ℤ) (h : ∀ q ∈ ps, to_chunk_center q.1 q.2 = c) :
    ps.foldl (fun st q => updateChunks st q.1 q.2) (L, c) = (L, c) := by
  induction ps with
  | nil => rfl
  | cons q rest ih =>
    rw [List.foldl_cons, updateChunks_same L c q.1 q.2 (h q (by simp))]
    exact ih (fun r hr => h r (by simp [hr]))

/-- **C7.** The loaded-chunk key set: a reconciliation always yields exactly
the 3×3 block of chunk centres around the player's chunk index (hence always
ring-size² = 9 chunks, centred on the player); any number of
player-position updates that stay in the same chunk leave the loaded set
untouched; and crossing exactly one chunk boundary (the chunk index moves by
one step along one axis) replaces exactly the ring's edge count of
coordinates — 3 unloaded, 3 newly loaded — with the total staying 9. -/
theorem claim_C7 (L : Finset (ℤ × ℤ)) (px py px2 py2 : ℚ)
    (ps : List (ℚ × ℚ)) :
    loadChunksAround L px py = centeredBlock (chunkIdx px) (chunkIdx py)
    ∧ (centeredBlock (chunkIdx px) (chunkIdx py)).card = 9
    ∧ ((∀ q ∈ ps, to_chunk_center q.1 q.2 = to_chunk_center px py) →
        ps.foldl (fun st q => updateChunks st q.1 q.2)
          (L, to_chunk_center px py) = (L, to_chunk_center px py))
    ∧ (((chunkIdx px2 = chunkIdx px + 1 ∧ chunkIdx py2 = chunkIdx py)
        ∨ (chunkIdx px2 = chunkIdx px - 1 ∧ chunkIdx py2 = chunkIdx py)
        ∨ (chunkIdx px2 = chunkIdx px ∧ chunkIdx py2 = chunkIdx py + 1)
        ∨ (chunkIdx px2 = chunkIdx px ∧ chunkIdx py2 = chunkIdx py - 1)) →
        (centeredBlock (chunkIdx px2) (chunkIdx py2) \
            centeredBlock (chunkIdx px) (chunkIdx py)).card = 3
        ∧ (centeredBlock (chunkIdx px) (chunkIdx py) \
            centeredBlock (chunkIdx px2) (chunkIdx py2)).card = 3
        ∧ (centeredBlock (chunkIdx px2) (chunkIdx py2)).card = 9) := by
  refine ⟨loadChunksAround_eq L px py, centeredBlock_card _ _, ?_, ?_⟩
  · intro hps
    exact updateChunks_foldl_same ps L _ hps
  · intro hadj
    refine ⟨centeredBlock_sdiff_card _ _ _ _ hadj, ?_, centeredBlock_card _ _⟩
    rcases hadj with ⟨h1, h2⟩ | ⟨h1, h2⟩ | ⟨h1, h2⟩ | ⟨h1, h2⟩
    · exact centeredBlock_sdiff_card _ _ _ _ (Or.inr (Or.inl ⟨by omega, by omega⟩))
    · exact centeredBlock_sdiff_card _ _ _ _ (Or.inl ⟨by omega, by omega⟩)
    · exact centeredBlock_sdiff_card _ _ _ _ (Or.inr (Or.inr (Or.inr ⟨by omega, by omega⟩)))
    · exact centeredBlock_sdiff_card _ _ _ _ (Or.inr (Or.inr (Or.inl ⟨by omega, by omega⟩)))

/-- Witness for C7: a player at (1, 2) stays in the chunk of (0, 0), so an
update frame leaves the loaded set untouched; moving to x = 1024 crosses one
boundary to the east, and the new 3×3 block drops exactly 3 coordinates of
the old one. -/
theorem claim_C7_witness :
    ([((1 : ℚ), (2 : ℚ))].foldl (fun st q => updateChunks st q.1 q.2)
        ((∅ : Finset (ℤ × ℤ)), to_chunk_center 0 0) = (∅, to_chunk_center 0 0))
    ∧ (centeredBlock (chunkIdx (1024 : ℚ)) (chunkIdx (0 : ℚ)) \
        centeredBlock (chunkIdx (0 : ℚ)) (chunkIdx (0 : ℚ))).card = 3 :=
  ⟨(claim_C7 ∅ 0 0 1024 0 [(1, 2)]).2.2.1
      (by
        intro q hq
        simp only [List.mem_singleton] at hq
        subst hq
        with_unfolding_all rfl),
   ((claim_C7 ∅ 0 0 1024 0 [(1, 2)]).2.2.2
      (Or.inl ⟨by with_unfolding_all rfl, rfl⟩)).1⟩

end Selement
